import Mathlib

/-!
Shallow embedding of `src/gym_trading/utils/mm_broker.py` (the Order /
PositionI / Broker execution-and-accounting engine) over exact rationals.

Python floats are modelled as `ℚ`; The Python function `round(x, 4)` is modelled as
round-half-to-even at 4 decimal places; the Python `dict` of executions is
modelled as an association list updated at its first (unique) matching key;
the process-wide `Order._id` counter is threaded explicitly through
`Order.make` / `GlobalSt`.  `BROKER_FEE` comes from a configuration module
outside the embedded sources, so every definition that consumes it takes the
fee as an explicit parameter.
-/

namespace MMBroker

/-- Round-half-to-even to the nearest integer (Python 3 `round` tie rule). -/
def roundHalfEven (x : ℚ) : ℤ :=
  let f := ⌊x⌋
  let r := x - (f : ℚ)
  if r < 1/2 then f
  else if 1/2 < r then f + 1
  else if f % 2 = 0 then f else f + 1

/-- The Python call `round(x, 4)`. -/
def round4 (x : ℚ) : ℚ := (roundHalfEven (x * 10000) : ℚ) / 10000

/-- A resting (or partially/fully filled) limit order; mirrors class `Order`.
`average_exectution_price` (sic) is the cached attribute set by
`get_average_execution_price`, initially `-1`. -/
structure Order where
  ccy : String
  side : String
  price : ℚ
  step : ℤ
  executed : ℚ
  id : ℕ
  queue_ahead : ℚ
  executions : List (ℚ × ℚ)
  average_exectution_price : ℚ
  deriving Repr, DecidableEq

/-- `Order._size = 1000.` (the fixed lot size shared by every order). -/
def Order.lotSize : ℚ := 1000

/-- `Order.__init__`: takes and returns the process-wide id counter
(`Order._id` is incremented first, then copied into the new order). -/
def Order.make (ccy side : String) (price : ℚ) (stp : ℤ) (queue_ahead : ℚ)
    (counter : ℕ) : Order × ℕ :=
  ({ ccy := ccy, side := side, price := price, step := stp, executed := 0,
     id := counter + 1, queue_ahead := queue_ahead, executions := [],
     average_exectution_price := -1 }, counter + 1)

/-- `self.executions[_price] += v` / `self.executions[_price] = v`:
dict update, accumulating at an existing key, else inserting. -/
def updExecutions : List (ℚ × ℚ) → ℚ → ℚ → List (ℚ × ℚ)
  | [], k, v => [(k, v)]
  | kv :: rest, k, v =>
    if kv.1 = k then (kv.1, kv.2 + v) :: rest else kv :: updExecutions rest k v

/-- `Order.is_filled` property: `executed >= Order._size`. -/
def Order.isFilled (o : Order) : Bool := decide (Order.lotSize ≤ o.executed)

/-- `Order.is_first_in_queue` property: `queue_ahead <= 0`. -/
def Order.isFirstInQueue (o : Order) : Bool := decide (o.queue_ahead ≤ 0)

/-- `Order.process_executions(volume)`. -/
def Order.process_executions (o : Order) (volume : ℚ) : Order :=
  let executed1 := o.executed + volume
  let overflow : ℚ := if Order.lotSize ≤ executed1 then executed1 - Order.lotSize else 0
  { o with executed := executed1 - overflow,
           executions := updExecutions o.executions o.price (volume - overflow) }

/-- `Order.reduce_queue_ahead(executed_volume)`. -/
def Order.reduce_queue_ahead (o : Order) (executed_volume : ℚ) : Order :=
  let q := o.queue_ahead - executed_volume
  if q < 0 then
    Order.process_executions { o with queue_ahead := 0 } (0 - q)
  else
    { o with queue_ahead := q }

/-- The first loop of `get_average_execution_price`: `total_volume`. -/
def Order.totalVolume (l : List (ℚ × ℚ)) : ℚ :=
  l.foldl (fun acc kv => acc + kv.2 / kv.1) 0

/-- `Order.get_average_execution_price()` (the returned value; the caller in
`PositionI.step` also stores it into `average_exectution_price`). -/
def Order.get_average_execution_price (o : Order) : ℚ :=
  let total_volume := Order.totalVolume o.executions
  let s := o.executions.foldl
    (fun acc kv => acc + kv.1 * ((kv.2 / kv.1) / total_volume)) 0
  round4 s

/-- Per-side inventory; mirrors class `PositionI`. -/
structure PositionI where
  max_position_count : ℕ
  positions : List Order
  order : Option Order
  realized_pnl : ℚ
  unrealized_pnl : ℚ
  full_inventory : Bool
  total_exposure : ℚ
  side : String
  average_price : ℚ
  reward_size : ℚ
  total_trade_count : ℕ
  deriving Repr, DecidableEq

/-- The field values assigned by `PositionI.__init__(side, max_position)`;
see `PositionI.make` for the constructor itself, which fails for capacity 0. -/
def PositionI.init (side : String) (max_position : ℕ) : PositionI :=
  { max_position_count := max_position, positions := [], order := none,
    realized_pnl := 0, unrealized_pnl := 0, full_inventory := false,
    total_exposure := 0, side := side, average_price := 0,
    reward_size := 1 / (max_position : ℚ), total_trade_count := 0 }

/-- Constructing a `PositionI`: the Python constructor computes
`reward_size = 1 / self.max_position_count` with true division, which raises
`ZeroDivisionError` when `max_position = 0`, so construction succeeds exactly
for positive capacity and yields the `PositionI.init` field values. -/
def PositionI.make (side : String) (max_position : ℕ) : Option PositionI :=
  if max_position = 0 then none else some (PositionI.init side max_position)

/-- `PositionI.reset()`: clears everything except the constructor parameters
(`side`, `max_position_count`) and `reward_size`. -/
def PositionI.reset (p : PositionI) : PositionI :=
  { p with positions := [], order := none, realized_pnl := 0,
           unrealized_pnl := 0, full_inventory := false, total_exposure := 0,
           average_price := 0, total_trade_count := 0 }

/-- `PositionI.position_count` property. -/
def PositionI.position_count (p : PositionI) : ℕ := p.positions.length

/-- `PositionI.add_order(order)`: rejected when full; otherwise either fills
the empty slot or amends the existing order in place (price, queue_ahead, id
only). -/
def PositionI.add_order (p : PositionI) (o : Order) : Bool × PositionI :=
  if p.full_inventory = false then
    match p.order with
    | none => (true, { p with order := some o })
    | some cur =>
      let cur1 : Order :=
        { cur with price := o.price, queue_ahead := o.queue_ahead, id := o.id }
      (true, { p with order := some cur1 })
  else
    (false, p)

/-- `PositionI.cancel_order()`. -/
def PositionI.cancel_order (p : PositionI) : Bool × PositionI :=
  match p.order with
  | none => (false, p)
  | some _ => (true, { p with order := none })

/-- The mutation `PositionI.step` applies to the active order before the
fill check: marketability gate per side, then direct execution when first in
queue, else queue depletion. -/
def stepOrderUpdate (o : Order) (bid_price ask_price buy_volume sell_volume : ℚ) :
    Order :=
  if o.side = "long" then
    if bid_price ≤ o.price then
      if o.isFirstInQueue then o.process_executions buy_volume
      else o.reduce_queue_ahead buy_volume
    else o
  else if o.side = "short" then
    if ask_price ≥ o.price then
      if o.isFirstInQueue then o.process_executions sell_volume
      else o.reduce_queue_ahead sell_volume
    else o
  else o

/-- `PositionI.step(bid_price, ask_price, buy_volume, sell_volume, step)`.
On a fill the appended position carries the freshly cached average execution
price (in Python the object in the list is aliased with `self.order`, so the
cache written by `get_average_execution_price` is visible through the list). -/
def PositionI.step (p : PositionI) (bid_price ask_price buy_volume sell_volume : ℚ)
    (_stp : ℤ) : Bool × PositionI :=
  match p.order with
  | none => (false, p)
  | some o =>
    let o1 := stepOrderUpdate o bid_price ask_price buy_volume sell_volume
    if o1.isFilled then
      let avg := o1.get_average_execution_price
      let o2 := { o1 with average_exectution_price := avg }
      let positions1 := p.positions ++ [o2]
      let exposure1 := p.total_exposure + avg
      (true, { p with positions := positions1,
                      order := none,
                      total_exposure := exposure1,
                      average_price := exposure1 / (positions1.length : ℚ),
                      full_inventory := decide (p.max_position_count ≤ positions1.length) })
    else
      (false, { p with order := some o1 })

/-- `PositionI.pop_position()`: LIFO pop of the most recent closed position. -/
def PositionI.pop_position (p : PositionI) : Option Order × PositionI :=
  match p.positions.getLast? with
  | none => (none, p)
  | some position =>
    let positions1 := p.positions.dropLast
    let exposure1 := p.total_exposure - position.average_exectution_price
    (some position,
     { p with positions := positions1,
              total_exposure := exposure1,
              average_price :=
                if 0 < positions1.length then exposure1 / (positions1.length : ℚ) else 0,
              full_inventory := decide (p.max_position_count ≤ positions1.length) })

/-- `PositionI.remove_position(midpoint)`: FIFO removal of the oldest closed
position, realizing its PnL. -/
def PositionI.remove_position (p : PositionI) (midpoint : ℚ) : ℚ × PositionI :=
  match p.positions with
  | [] => (0, p)
  | ord :: rest =>
    let pnl : ℚ :=
      if p.side = "long" then (midpoint - ord.price) / ord.price
      else if p.side = "short" then (ord.price - midpoint) / ord.price
      else 0
    let exposure1 := p.total_exposure - ord.average_exectution_price
    (pnl, { p with positions := rest,
                   realized_pnl := p.realized_pnl + pnl,
                   total_exposure := exposure1,
                   average_price :=
                     if 0 < rest.length then exposure1 / (rest.length : ℚ) else 0,
                   full_inventory := decide (p.max_position_count ≤ rest.length),
                   total_trade_count := p.total_trade_count + 1 })

/-- The `while self.position_count > 0` loop of `flatten_inventory`, with the
iteration count made explicit (each pass removes exactly one position). -/
def PositionI.flattenAux (fee midpoint : ℚ) : ℕ → PositionI → PositionI
  | 0, p => p
  | n + 1, p =>
    let p1 := (p.remove_position midpoint).2
    PositionI.flattenAux fee midpoint n { p1 with realized_pnl := p1.realized_pnl - fee }

/-- `PositionI.flatten_inventory(midpoint)`; `fee` is `BROKER_FEE`.  Returns
`-0.00000000001` untouched when empty, else the net realized-PnL change. -/
def PositionI.flatten_inventory (p : PositionI) (fee midpoint : ℚ) : ℚ × PositionI :=
  let prev_realized_pnl := p.realized_pnl
  if p.positions.length < 1 then
    (-(1 / 100000000000), p)
  else
    let p1 := PositionI.flattenAux fee midpoint p.positions.length p
    (p1.realized_pnl - prev_realized_pnl, p1)

/-- Wrapper over one long and one short inventory; mirrors class `Broker`. -/
structure Broker where
  long_inventory : PositionI
  short_inventory : PositionI
  deriving Repr, DecidableEq

/-- `Broker.reward_scale = BROKER_FEE * 2.` -/
def Broker.rewardScale (fee : ℚ) : ℚ := fee * 2

/-- `Broker.__init__(max_position)`. -/
def Broker.init (max_position : ℕ) : Broker :=
  ⟨PositionI.init "long" max_position, PositionI.init "short" max_position⟩

/-- `Broker.reset()`. -/
def Broker.reset (b : Broker) : Broker :=
  ⟨b.long_inventory.reset, b.short_inventory.reset⟩

/-- `Broker.step(bid_price, ask_price, buy_volume, sell_volume, step)`:
step the long side, net a fill against held short positions (popping the
just-filled long position LIFO and removing the oldest short position FIFO at
the price of the popped position); then symmetrically for the short side; divide
the summed netting PnL by `reward_scale`.  In Python a `None` from
`pop_position` would raise on `.price`; that branch is unreachable because the
pop immediately follows the append done by the fill, and is modelled as a no-op. -/
def Broker.step (b : Broker) (fee bid_price ask_price buy_volume sell_volume : ℚ)
    (stp : ℤ) : ℚ × Broker :=
  let r1 := b.long_inventory.step bid_price ask_price buy_volume sell_volume stp
  let res1 : ℚ × PositionI × PositionI :=
    if r1.1 = true ∧ 0 < b.short_inventory.position_count then
      match r1.2.pop_position with
      | (some new_position, li2) =>
        let r2 := b.short_inventory.remove_position new_position.price
        (r2.1, li2, r2.2)
      | (none, li2) => (0, li2, b.short_inventory)
    else (0, r1.2, b.short_inventory)
  let r3 := res1.2.2.step bid_price ask_price buy_volume sell_volume stp
  let res2 : ℚ × PositionI × PositionI :=
    if r3.1 = true ∧ 0 < res1.2.1.position_count then
      match r3.2.pop_position with
      | (some new_position, si2) =>
        let r4 := res1.2.1.remove_position new_position.price
        (r4.1, r4.2, si2)
      | (none, si2) => (0, res1.2.1, si2)
    else (0, res1.2.1, r3.2)
  ((res1.1 + res2.1) / Broker.rewardScale fee, ⟨res2.2.1, res2.2.2⟩)

/-- The process-wide mutable state of the module: the class-level `Order._id`
counter together with a `Broker` instance. -/
structure GlobalSt where
  order_id : ℕ
  broker : Broker
  deriving Repr, DecidableEq

/-- Constructing an `Order` bumps the process-wide counter. -/
def GlobalSt.newOrder (g : GlobalSt) (ccy side : String) (price : ℚ) (stp : ℤ)
    (queue_ahead : ℚ) : Order × GlobalSt :=
  let r := Order.make ccy side price stp queue_ahead g.order_id
  (r.1, { g with order_id := r.2 })

/-- `Broker.reset()` viewed on the process state: it never touches the
class-level id counter. -/
def GlobalSt.resetBroker (g : GlobalSt) : GlobalSt :=
  { g with broker := g.broker.reset }

/-! ### Generic helper lemmas -/

/-- A left fold that only accumulates sums equals the starting value plus the
sum of the mapped list. -/
theorem foldl_add_map {α : Type} (g : α → ℚ) (l : List α) (a : ℚ) :
    l.foldl (fun acc x => acc + g x) a = a + (l.map g).sum := by
  induction l generalizing a with
  | nil => simp
  | cons x xs ih => simp [ih, add_assoc]

/-- Summing termwise divisions by a common denominator is division of the sum. -/
theorem sum_map_mul_div (l : List (ℚ × ℚ)) (S : ℚ) :
    (l.map fun kv => kv.1 * ((kv.2 / kv.1) / S)).sum
      = (l.map fun kv => kv.1 * (kv.2 / kv.1)).sum / S := by
  induction l with
  | nil => simp
  | cons kv rest ih =>
    simp only [List.map_cons, List.sum_cons, ih, add_div, mul_div_assoc]

/-- The total volume recorded in an executions mapping. -/
def sumExec (l : List (ℚ × ℚ)) : ℚ := (l.map Prod.snd).sum

theorem sumExec_updExecutions (l : List (ℚ × ℚ)) (k v : ℚ) :
    sumExec (updExecutions l k v) = sumExec l + v := by
  induction l with
  | nil => simp [sumExec, updExecutions]
  | cons kv rest ih =>
    by_cases h : kv.1 = k
    · simp [sumExec, updExecutions, h]; ring
    · simp only [updExecutions, if_neg h, sumExec, List.map_cons, List.sum_cons]
      simp only [sumExec] at ih
      rw [ih]; ring

/-! ### Claim C2 -/

/-- Claim C2: for every Order with a non-empty executions mapping,
`get_average_execution_price` returns Σ (price_i · w_i) / total_w rounded to
4 decimal places, where w_i = volume_i / price_i and total_w = Σ w_i. -/
theorem claim_C2_avg_price (o : Order) (h : o.executions ≠ []) :
    o.get_average_execution_price =
      round4 ((o.executions.map fun kv => kv.1 * (kv.2 / kv.1)).sum /
              (o.executions.map fun kv => kv.2 / kv.1).sum) := by
  unfold Order.get_average_execution_price Order.totalVolume
  dsimp only
  rw [foldl_add_map, foldl_add_map, zero_add, zero_add, sum_map_mul_div]

/-- A concrete order with two execution prices, for the C2 witness. -/
def c2order : Order :=
  { ccy := "BTC-USD", side := "long", price := 50, step := 0,
    executed := 1000, id := 1, queue_ahead := 0,
    executions := [(100, 300), (50, 700)], average_exectution_price := -1 }

/-- Witness for C2 at executions `[(100, 300), (50, 700)]`. -/
theorem claim_C2_avg_price_witness :
    c2order.executions ≠ [] ∧
    c2order.get_average_execution_price =
      round4 ((c2order.executions.map fun kv => kv.1 * (kv.2 / kv.1)).sum /
              (c2order.executions.map fun kv => kv.2 / kv.1).sum) ∧
    c2order.get_average_execution_price = 588235 / 10000 := by
  refine ⟨by decide, claim_C2_avg_price _ (by decide), ?_⟩
  norm_num [c2order, Order.get_average_execution_price, Order.totalVolume,
    round4, roundHalfEven]

/-! ### Claim C3 -/

/-- One mutation in the life of a resting order: a call to
`reduce_queue_ahead` or to `process_executions`. -/
inductive OrderOp where
  | reduce (v : ℚ)
  | process (v : ℚ)
  deriving Repr, DecidableEq

/-- The volume argument of a call. -/
def OrderOp.vol : OrderOp → ℚ
  | .reduce v => v
  | .process v => v

/-- Apply one call to an order. -/
def applyOrderOp (o : Order) : OrderOp → Order
  | .reduce v => o.reduce_queue_ahead v
  | .process v => o.process_executions v

/-- Invariant tying a created order to its execution bookkeeping. -/
def OrderInv (o : Order) : Prop :=
  0 ≤ o.queue_ahead ∧ o.executed ≤ Order.lotSize ∧ sumExec o.executions = o.executed

theorem process_executions_orderInv (o : Order) (v : ℚ) (hv : 0 ≤ v)
    (h : OrderInv o) : OrderInv (o.process_executions v) := by
  obtain ⟨hq, he, hs⟩ := h
  unfold Order.process_executions OrderInv
  by_cases hov : Order.lotSize ≤ o.executed + v
  · simp only [if_pos hov]
    refine ⟨hq, by simp [le_refl], ?_⟩
    rw [sumExec_updExecutions, hs]; ring
  · simp only [if_neg hov]
    refine ⟨hq, by linarith [lt_of_not_le hov], ?_⟩
    rw [sumExec_updExecutions, hs]; ring

theorem reduce_queue_ahead_orderInv (o : Order) (v : ℚ) (hv : 0 ≤ v)
    (h : OrderInv o) : OrderInv (o.reduce_queue_ahead v) := by
  obtain ⟨hq, he, hs⟩ := h
  unfold Order.reduce_queue_ahead
  by_cases hneg : o.queue_ahead - v < 0
  · simp only [if_pos hneg]
    exact process_executions_orderInv _ _ (by linarith) ⟨le_refl 0, he, hs⟩
  · simp only [if_neg hneg]
    refine ⟨?_, he, hs⟩
    show 0 ≤ o.queue_ahead - v
    linarith [not_lt.mp hneg]

theorem foldl_orderOps_orderInv (ops : List OrderOp) (o : Order)
    (hops : ∀ op ∈ ops, 0 ≤ op.vol) (h : OrderInv o) :
    OrderInv (ops.foldl applyOrderOp o) := by
  induction ops generalizing o with
  | nil => exact h
  | cons op rest ih =>
    have h1 : OrderInv (applyOrderOp o op) := by
      cases op with
      | reduce v =>
        exact reduce_queue_ahead_orderInv o v
          (hops (OrderOp.reduce v) (List.mem_cons_self _ _)) h
      | process v =>
        exact process_executions_orderInv o v
          (hops (OrderOp.process v) (List.mem_cons_self _ _)) h
    exact ih _ (fun op hop => hops op (List.mem_cons_of_mem _ hop)) h1

/-- Claim C3: for every Order created with non-negative `queue_ahead` and any
finite sequence of `reduce_queue_ahead` / `process_executions` calls with
non-negative volumes, the cumulative executed volume (and the total recorded
in the executions mapping) never exceeds the lot size, and `queue_ahead`
never goes negative. -/
theorem claim_C3_order_invariants (ops : List OrderOp) (o : Order)
    (hops : ∀ op ∈ ops, 0 ≤ op.vol) (hq : 0 ≤ o.queue_ahead)
    (he : o.executed = 0) (hx : o.executions = []) :
    (ops.foldl applyOrderOp o).executed ≤ Order.lotSize ∧
    sumExec (ops.foldl applyOrderOp o).executions ≤ Order.lotSize ∧
    0 ≤ (ops.foldl applyOrderOp o).queue_ahead := by
  have h0 : OrderInv o := by
    refine ⟨hq, ?_, by simp [sumExec, hx, he]⟩
    rw [he]; unfold Order.lotSize; norm_num
  obtain ⟨h1, h2, h3⟩ := foldl_orderOps_orderInv ops o hops h0
  exact ⟨h2, by rw [h3]; exact h2, h1⟩

/-- A freshly created order with 250 of volume queued ahead, for the C3
witness. -/
def c3order : Order := (Order.make "BTC-USD" "long" 100 0 250 0).1

/-- Calls whose queue depletion spills into executions and whose oversized
final execution gets clamped at the lot size, for the C3 witness. -/
def c3ops : List OrderOp := [.reduce 600, .process 700, .process 900]

/-- Witness for C3. -/
theorem claim_C3_order_invariants_witness :
    (c3ops.foldl applyOrderOp c3order).executed ≤ Order.lotSize ∧
    sumExec (c3ops.foldl applyOrderOp c3order).executions ≤ Order.lotSize ∧
    0 ≤ (c3ops.foldl applyOrderOp c3order).queue_ahead := by
  exact claim_C3_order_invariants _ _ (by decide) (by decide) (by decide) (by decide)

/-! ### Characterizations of the inventory operations -/

/-- The realized PnL booked when a position is closed against a reference
price, as computed inside `remove_position`. -/
def closePnl (side : String) (midpoint : ℚ) (o : Order) : ℚ :=
  if side = "long" then (midpoint - o.price) / o.price
  else if side = "short" then (o.price - midpoint) / o.price
  else 0

theorem remove_position_cons_eq (p : PositionI) (ord : Order) (rest : List Order)
    (h : p.positions = ord :: rest) (mid : ℚ) :
    p.remove_position mid =
      (closePnl p.side mid ord,
       { p with positions := rest,
                realized_pnl := p.realized_pnl + closePnl p.side mid ord,
                total_exposure := p.total_exposure - ord.average_exectution_price,
                average_price := if 0 < rest.length then
                  (p.total_exposure - ord.average_exectution_price) / (rest.length : ℚ)
                  else 0,
                full_inventory := decide (p.max_position_count ≤ rest.length),
                total_trade_count := p.total_trade_count + 1 }) := by
  unfold PositionI.remove_position closePnl
  rw [h]

theorem pop_position_concat_eq (p : PositionI) (l : List Order) (x : Order)
    (h : p.positions = l ++ [x]) :
    p.pop_position =
      (some x,
       { p with positions := l,
                total_exposure := p.total_exposure - x.average_exectution_price,
                average_price := if 0 < l.length then
                  (p.total_exposure - x.average_exectution_price) / (l.length : ℚ)
                  else 0,
                full_inventory := decide (p.max_position_count ≤ l.length) }) := by
  unfold PositionI.pop_position
  rw [h, List.getLast?_concat]
  simp [List.dropLast_concat]

/-! ### Claim C6 -/

/-- Claim C6: on a non-empty Inventory, `remove_position` removes the oldest
closed position (FIFO), returns the side-signed relative PnL against the
reference price, accumulates it into `realized_pnl`, adjusts exposure and
average price, and bumps the trade count by exactly 1; on an empty Inventory
it returns 0 and leaves the state unchanged. -/
theorem claim_C6_remove_position (p : PositionI) (mid : ℚ) (ord : Order)
    (rest : List Order) :
    (p.positions = [] → p.remove_position mid = (0, p)) ∧
    (p.positions = ord :: rest →
      (p.side = "long" → (p.remove_position mid).1 = (mid - ord.price) / ord.price) ∧
      (p.side = "short" → (p.remove_position mid).1 = (ord.price - mid) / ord.price) ∧
      (p.remove_position mid).2.positions = rest ∧
      (p.remove_position mid).2.realized_pnl = p.realized_pnl + (p.remove_position mid).1 ∧
      (p.remove_position mid).2.total_trade_count = p.total_trade_count + 1 ∧
      (p.remove_position mid).2.total_exposure =
        p.total_exposure - ord.average_exectution_price ∧
      (p.remove_position mid).2.average_price =
        (if 0 < rest.length then
          (p.total_exposure - ord.average_exectution_price) / (rest.length : ℚ) else 0) ∧
      (p.remove_position mid).2.full_inventory =
        decide (p.max_position_count ≤ rest.length) ∧
      (p.remove_position mid).2.order = p.order) := by
  constructor
  · intro h
    unfold PositionI.remove_position
    rw [h]
  · intro h
    rw [remove_position_cons_eq p ord rest h mid]
    refine ⟨fun hs => by simp [closePnl, hs], fun hs => by simp [closePnl, hs],
      rfl, rfl, rfl, rfl, rfl, rfl, rfl⟩

/-- A closed (fully executed) long position at price 100 with cached average
execution price 100, for witnesses. -/
def c6pos : Order :=
  { (Order.make "BTC-USD" "long" 100 0 0 0).1 with
    executed := 1000, average_exectution_price := 100 }

/-- A long inventory holding exactly the position `c6pos`, for witnesses. -/
def c6inv : PositionI :=
  { PositionI.init "long" 5 with
    positions := [c6pos], total_exposure := 100, average_price := 100 }

/-- Witness for C6: a removal from a one-position long inventory and a
removal from an empty short inventory. -/
theorem claim_C6_remove_position_witness :
    (c6inv.remove_position 110).1 = (110 - c6pos.price) / c6pos.price ∧
    (c6inv.remove_position 110).2.positions = [] ∧
    (c6inv.remove_position 110).2.total_trade_count = c6inv.total_trade_count + 1 ∧
    (PositionI.init "short" 3).remove_position 50 = (0, PositionI.init "short" 3) := by
  have H := (claim_C6_remove_position c6inv 110 c6pos []).2 rfl
  exact ⟨H.1 rfl, H.2.2.1, H.2.2.2.2.1,
    (claim_C6_remove_position (PositionI.init "short" 3) 50 c6pos []).1 rfl⟩

/-! ### Claim C7 -/

theorem flattenAux_spec (fee mid : ℚ) (ps : List Order) :
    ∀ (p : PositionI), p.positions = ps →
    (PositionI.flattenAux fee mid ps.length p).positions = [] ∧
    (PositionI.flattenAux fee mid ps.length p).realized_pnl =
      p.realized_pnl + (ps.map (closePnl p.side mid)).sum - (ps.length : ℚ) * fee := by
  induction ps with
  | nil =>
    intro p h
    simpa [PositionI.flattenAux] using h
  | cons ord rest ih =>
    intro p h
    have hrem := remove_position_cons_eq p ord rest h mid
    have hunf : PositionI.flattenAux fee mid (ord :: rest).length p
        = PositionI.flattenAux fee mid rest.length
            { (p.remove_position mid).2 with
              realized_pnl := (p.remove_position mid).2.realized_pnl - fee } := rfl
    obtain ⟨h1, h2⟩ := ih
      { (p.remove_position mid).2 with
        realized_pnl := (p.remove_position mid).2.realized_pnl - fee }
      (by rw [hrem])
    refine ⟨by rw [hunf]; exact h1, ?_⟩
    rw [hunf, h2]
    simp only [hrem]
    simp only [List.map_cons, List.sum_cons, List.length_cons]
    push_cast
    ring

/-- Claim C7: `flatten_inventory` on an empty Inventory returns the fixed
small negative sentinel and changes nothing; on a non-empty Inventory it
removes every position, charging one fee per removal, and returns the net
realized-PnL change, i.e. the sum of the per-position close PnLs minus one
fee per position removed. -/
theorem claim_C7_flatten_inventory (p : PositionI) (fee mid : ℚ) :
    (p.positions = [] → p.flatten_inventory fee mid = (-(1 / 100000000000), p)) ∧
    (p.positions ≠ [] →
      (p.flatten_inventory fee mid).2.positions = [] ∧
      (p.flatten_inventory fee mid).1 =
        (p.positions.map (closePnl p.side mid)).sum - (p.positions.length : ℚ) * fee ∧
      (p.flatten_inventory fee mid).1 =
        (p.flatten_inventory fee mid).2.realized_pnl - p.realized_pnl) := by
  constructor
  · intro h
    unfold PositionI.flatten_inventory
    rw [if_pos (by simp [h])]
  · intro h
    have hlen : ¬ p.positions.length < 1 := by
      simpa [Nat.lt_one_iff] using h
    obtain ⟨h1, h2⟩ := flattenAux_spec fee mid p.positions p rfl
    unfold PositionI.flatten_inventory
    rw [if_neg hlen]
    dsimp only
    exact ⟨h1, by rw [h2]; ring, rfl⟩

/-- A long inventory holding two closed positions, for the C7 witness. -/
def c7inv : PositionI :=
  { PositionI.init "long" 5 with
    positions := [c6pos, { c6pos with price := 50, average_exectution_price := 50 }],
    total_exposure := 150, average_price := 75 }

/-- Witness for C7: flattening a two-position long inventory at reference
price 110 and flattening an empty inventory. -/
theorem claim_C7_flatten_inventory_witness :
    (c7inv.flatten_inventory 1 110).2.positions = [] ∧
    (c7inv.flatten_inventory 1 110).1 =
      (c7inv.positions.map (closePnl c7inv.side 110)).sum -
        (c7inv.positions.length : ℚ) * 1 ∧
    (PositionI.init "long" 2).flatten_inventory 1 110 =
      (-(1 / 100000000000), PositionI.init "long" 2) := by
  have H := (claim_C7_flatten_inventory c7inv 1 110).2 (by decide)
  exact ⟨H.1, H.2.1,
    (claim_C7_flatten_inventory (PositionI.init "long" 2) 1 110).1 rfl⟩

/-! ### Claim C9 -/

/-- Claim C9: `cancel_order` returns false and changes nothing when no active
order exists; otherwise it clears the active-order slot and returns true,
leaving positions, realized PnL and trade count untouched (any partial
execution progress of the cancelled order is simply discarded). -/
theorem claim_C9_cancel_order (p : PositionI) (o : Order) :
    (p.order = none → p.cancel_order = (false, p)) ∧
    (p.order = some o → p.cancel_order = (true, { p with order := none })) := by
  constructor <;> intro h <;> simp [PositionI.cancel_order, h]

/-- An inventory with a live active order, for the C9 witness. -/
def c9inv : PositionI :=
  { PositionI.init "long" 5 with
    positions := [c6pos], order := some ((Order.make "BTC-USD" "long" 90 0 50 7).1),
    realized_pnl := 3, total_trade_count := 4 }

/-- Witness for C9: cancelling with and without an active order. -/
theorem claim_C9_cancel_order_witness :
    c9inv.cancel_order = (true, { c9inv with order := none }) ∧
    (PositionI.init "short" 3).cancel_order = (false, PositionI.init "short" 3) := by
  exact ⟨(claim_C9_cancel_order c9inv ((Order.make "BTC-USD" "long" 90 0 50 7).1)).2 rfl,
    (claim_C9_cancel_order (PositionI.init "short" 3) c6pos).1 rfl⟩

/-! ### Execution helper lemmas -/

theorem process_no_overflow (o : Order) (v : ℚ) (h : o.executed + v < Order.lotSize) :
    o.process_executions v =
      { o with executed := o.executed + v,
               executions := updExecutions o.executions o.price v } := by
  unfold Order.process_executions
  dsimp only
  rw [if_neg (not_le.mpr h), sub_zero, sub_zero]

theorem process_overflow (o : Order) (v : ℚ) (h : Order.lotSize ≤ o.executed + v) :
    o.process_executions v =
      { o with executed := Order.lotSize,
               executions := updExecutions o.executions o.price
                 (Order.lotSize - o.executed) } := by
  unfold Order.process_executions
  dsimp only
  rw [if_pos h]
  have h1 : o.executed + v - (o.executed + v - Order.lotSize) = Order.lotSize := by ring
  have h2 : v - (o.executed + v - Order.lotSize) = Order.lotSize - o.executed := by ring
  rw [h1, h2]

/-- The filled position as it ends up in the positions list: the processed
order with its freshly cached average execution price (the list element and
`self.order` are the same Python object). -/
def fillOrder (o : Order) (v : ℚ) : Order :=
  { o.process_executions v with
    average_exectution_price := (o.process_executions v).get_average_execution_price }

theorem step_fill_long (p : PositionI) (o : Order) (bid ask bvol svol : ℚ) (stp : ℤ)
    (horder : p.order = some o) (hside : o.side = "long")
    (hbid : bid ≤ o.price) (hq : o.queue_ahead ≤ 0)
    (hfill : Order.lotSize ≤ o.executed + bvol) :
    p.step bid ask bvol svol stp =
      (true,
       { p with
          positions := p.positions ++ [fillOrder o bvol],
          order := none,
          total_exposure := p.total_exposure +
            (o.process_executions bvol).get_average_execution_price,
          average_price := (p.total_exposure +
            (o.process_executions bvol).get_average_execution_price) /
              ((p.positions.length + 1 : ℕ) : ℚ),
          full_inventory := decide (p.max_position_count ≤ p.positions.length + 1) }) := by
  have hfq : o.isFirstInQueue = true := by
    simp [Order.isFirstInQueue, hq]
  have hex : (o.process_executions bvol).executed = Order.lotSize := by
    rw [process_overflow o bvol hfill]
  have hfd : (o.process_executions bvol).isFilled = true := by
    simp [Order.isFilled, hex]
  unfold PositionI.step stepOrderUpdate
  rw [horder]
  dsimp only
  rw [hside, hfq]
  simp only [if_pos hbid, if_true, ite_true, if_pos rfl]
  rw [hfd]
  simp [fillOrder, List.length_append]

/-- On a single-price executions mapping the average execution price is the
rounded price itself. -/
theorem getAvg_single (o : Order) (P v : ℚ) (hx : o.executions = [(P, v)])
    (hv : v ≠ 0) :
    o.get_average_execution_price = round4 P := by
  unfold Order.get_average_execution_price Order.totalVolume
  rw [hx]
  dsimp only [List.foldl]
  by_cases hP : P = 0
  · subst hP
    simp
  · have hvP : v / P ≠ 0 := div_ne_zero hv hP
    rw [zero_add, zero_add, div_self hvP, mul_one]

/-- Flattening a one-position long inventory books the single close. -/
theorem flatten_single_long (p : PositionI) (x : Order) (fee mid : ℚ)
    (hpos : p.positions = [x]) (hside : p.side = "long") :
    (p.flatten_inventory fee mid).1 = (mid - x.price) / x.price - fee := by
  obtain ⟨h1, h2⟩ := flattenAux_spec fee mid p.positions p rfl
  unfold PositionI.flatten_inventory
  rw [if_neg (by rw [hpos]; norm_num)]
  dsimp only
  rw [h2, hpos, hside]
  simp [closePnl]
  ring

/-! ### Claim C5 -/

/-- A fresh long order at price `P` with no queue ahead. -/
def c5order (P : ℚ) (st0 : ℤ) (cnt : ℕ) : Order :=
  (Order.make "BTC-USD" "long" P st0 0 cnt).1

/-- The empty long inventory after placing `c5order`. -/
def c5inv1 (m cnt : ℕ) (P : ℚ) (st0 : ℤ) : PositionI :=
  ((PositionI.init "long" m).add_order (c5order P st0 cnt)).2

/-- The inventory after one `step` on `c5inv1`. -/
def c5inv2 (m cnt : ℕ) (P bid ask bvol svol : ℚ) (st0 stp : ℤ) : PositionI :=
  ((c5inv1 m cnt P st0).step bid ask bvol svol stp).2

theorem c5_roundtrip (m cnt : ℕ) (P Δ fee bid ask bvol svol : ℚ) (st0 stp : ℤ)
    (hbid : bid ≤ P) (hvol : Order.lotSize ≤ bvol) :
    ((PositionI.init "long" m).add_order (c5order P st0 cnt)).1 = true ∧
    ((c5inv1 m cnt P st0).step bid ask bvol svol stp).1 = true ∧
    (c5inv2 m cnt P bid ask bvol svol st0 stp).position_count = 1 ∧
    (c5inv2 m cnt P bid ask bvol svol st0 stp).average_price = round4 P ∧
    ((c5inv2 m cnt P bid ask bvol svol st0 stp).flatten_inventory fee (P + Δ)).1
      = Δ / P - fee := by
  have hadd : (PositionI.init "long" m).add_order (c5order P st0 cnt)
      = (true, { PositionI.init "long" m with order := some (c5order P st0 cnt) }) := rfl
  have hinv1 : c5inv1 m cnt P st0
      = { PositionI.init "long" m with order := some (c5order P st0 cnt) } := by
    unfold c5inv1
    rw [hadd]
  have hfill : Order.lotSize ≤ (c5order P st0 cnt).executed + bvol := by
    show Order.lotSize ≤ 0 + bvol
    rw [zero_add]
    exact hvol
  have hstep := step_fill_long
    { PositionI.init "long" m with order := some (c5order P st0 cnt) }
    (c5order P st0 cnt) bid ask bvol svol stp rfl rfl hbid (le_refl 0) hfill
  have havg : ((c5order P st0 cnt).process_executions bvol).get_average_execution_price
      = round4 P := by
    refine getAvg_single _ P (Order.lotSize - 0) ?_ ?_
    · rw [process_overflow _ _ hfill]
      rfl
    · norm_num [Order.lotSize]
  have hinv2 : c5inv2 m cnt P bid ask bvol svol st0 stp
      = { PositionI.init "long" m with
          positions := [fillOrder (c5order P st0 cnt) bvol],
          order := none,
          total_exposure := round4 P,
          average_price := round4 P,
          full_inventory := decide (m ≤ 1) } := by
    unfold c5inv2
    rw [hinv1, hstep]
    simp [havg, PositionI.init]
  refine ⟨by rw [hadd], by rw [hinv1, hstep], ?_, ?_, ?_⟩
  · rw [hinv2]
    rfl
  · rw [hinv2]
  · rw [hinv2]
    rw [flatten_single_long _ (fillOrder (c5order P st0 cnt) bvol) fee (P + Δ) rfl rfl]
    show (P + Δ - P) / P - fee = Δ / P - fee
    rw [add_sub_cancel_left]

/-- Claim C5 (amended): the round trip opens a long order at price `P` with
zero queue ahead; one step with `bid ≤ P` and `buy_volume ≥ lot size` fills
it, leaving `position_count = 1` and `average_price = round4 P` (the average
execution price is rounded to 4 decimal places, so it equals `P` exactly only
when `P` has at most 4 decimals); flattening at `P + Δ` then returns
`Δ/P − fee`. -/
theorem claim_C5_roundtrip (m cnt : ℕ) (P Δ fee bid ask bvol svol : ℚ)
    (st0 stp : ℤ) (hbid : bid ≤ P) (hvol : Order.lotSize ≤ bvol) :
    ((PositionI.init "long" m).add_order (c5order P st0 cnt)).1 = true ∧
    ((c5inv1 m cnt P st0).step bid ask bvol svol stp).1 = true ∧
    (c5inv2 m cnt P bid ask bvol svol st0 stp).position_count = 1 ∧
    (c5inv2 m cnt P bid ask bvol svol st0 stp).average_price = round4 P ∧
    ((c5inv2 m cnt P bid ask bvol svol st0 stp).flatten_inventory fee (P + Δ)).1
      = Δ / P - fee :=
  c5_roundtrip m cnt P Δ fee bid ask bvol svol st0 stp hbid hvol

/-- Witness for C5 at `P = 100`, `Δ = 10`, `fee = 1`. -/
theorem claim_C5_roundtrip_witness :
    ((PositionI.init "long" 2).add_order (c5order 100 0 0)).1 = true ∧
    ((c5inv1 2 0 100 0).step 100 0 1000 0 1).1 = true ∧
    (c5inv2 2 0 100 100 0 1000 0 0 1).position_count = 1 ∧
    (c5inv2 2 0 100 100 0 1000 0 0 1).average_price = round4 100 ∧
    ((c5inv2 2 0 100 100 0 1000 0 0 1).flatten_inventory 1 (100 + 10)).1
      = 10 / 100 - 1 :=
  claim_C5_roundtrip 2 0 100 10 1 100 0 1000 0 0 1 (le_refl 100)
    (by norm_num [Order.lotSize])

/-- Counterexample for C5 as stated: at `P = 1/100000` (five decimal places)
the filled average price is rounded to 4 decimals, so `average_price` is `0`,
not `P`. -/
theorem claim_C5_counterexample :
    (c5inv2 1 0 (1/100000) 0 0 1000 0 0 0).position_count = 1 ∧
    (c5inv2 1 0 (1/100000) 0 0 1000 0 0 0).average_price = 0 ∧
    ¬ (c5inv2 1 0 (1/100000) 0 0 1000 0 0 0).average_price = 1/100000 := by
  have H := c5_roundtrip 1 0 (1/100000) 0 0 0 0 1000 0 0 0
    (by norm_num) (by norm_num [Order.lotSize])
  have hfloor : ⌊(1/100000 : ℚ) * 10000⌋ = 0 := by
    rw [Int.floor_eq_zero_iff]
    constructor <;> norm_num
  have hr : round4 (1/100000 : ℚ) = 0 := by
    unfold round4 roundHalfEven
    rw [hfloor]
    norm_num
  refine ⟨H.2.2.1, ?_, ?_⟩
  · rw [H.2.2.2.1, hr]
  · rw [H.2.2.2.1, hr]
    norm_num

/-! ### Claim C4 -/

/-- The in-place update `add_order` performs on an existing active order:
only price, queue_ahead and id are overwritten. -/
def amendOrder (cur o : Order) : Order :=
  { cur with price := o.price, queue_ahead := o.queue_ahead, id := o.id }

/-- The amend-mid-life scenario: a fresh long order at price `P1` is
partially filled with volume `v`, then its price, queue and id are
overwritten in place (exactly the update `add_order` performs on an existing
order), then a further execution of volume `w` completes it. -/
def amendFill (P1 P2 v w q2 : ℚ) (i2 : ℕ) : Order :=
  let oA := ((Order.make "BTC-USD" "long" P1 0 0 0).1).process_executions v
  let oB : Order := { oA with price := P2, queue_ahead := q2, id := i2 }
  oB.process_executions w

/-- Claim C4: amending via `add_order` on a non-full inventory with an
existing active order returns true and overwrites only price, queue_ahead and
id, preserving `executed` and `executions`; consequently an order partially
filled at `P1`, amended to `P2`, then filled to completion averages the two
price levels with the reciprocal-price weighting of §4.1 instead of
discarding the pre-amendment fills. -/
theorem claim_C4_amend_preserves_fills (inv : PositionI) (o onew : Order)
    (P1 P2 v w q2 : ℚ) (i2 : ℕ) :
    (inv.full_inventory = false → inv.order = some o →
      inv.add_order onew = (true, { inv with order := some (amendOrder o onew) })) ∧
    (0 ≤ v → v < Order.lotSize → Order.lotSize ≤ v + w → P1 ≠ P2 →
      (amendFill P1 P2 v w q2 i2).executed = Order.lotSize ∧
      (amendFill P1 P2 v w q2 i2).executions = [(P1, v), (P2, Order.lotSize - v)] ∧
      (amendFill P1 P2 v w q2 i2).get_average_execution_price =
        round4 ((P1 * (v / P1) + P2 * ((Order.lotSize - v) / P2)) /
                (v / P1 + (Order.lotSize - v) / P2))) := by
  constructor
  · intro hfull horder
    simp [PositionI.add_order, hfull, horder, amendOrder]
  · intro hv hvlt hfill hne
    have hA : ((Order.make "BTC-USD" "long" P1 0 0 0).1).process_executions v
        = { (Order.make "BTC-USD" "long" P1 0 0 0).1 with
            executed := 0 + v, executions := updExecutions [] P1 v } := by
      rw [process_no_overflow _ v (by show (0:ℚ) + v < Order.lotSize; rw [zero_add]; exact hvlt)]
      rfl
    have hB : amendFill P1 P2 v w q2 i2
        = ({ ((Order.make "BTC-USD" "long" P1 0 0 0).1).process_executions v with
             price := P2, queue_ahead := q2, id := i2 } : Order).process_executions w := rfl
    have hBfill : Order.lotSize ≤
        ({ ((Order.make "BTC-USD" "long" P1 0 0 0).1).process_executions v with
           price := P2, queue_ahead := q2, id := i2 } : Order).executed + w := by
      rw [hA]
      show Order.lotSize ≤ 0 + v + w
      rw [zero_add]
      exact hfill
    have hC : amendFill P1 P2 v w q2 i2
        = { ((Order.make "BTC-USD" "long" P1 0 0 0).1).process_executions v with
            price := P2, queue_ahead := q2, id := i2,
            executed := Order.lotSize,
            executions := updExecutions (updExecutions [] P1 v) P2
              (Order.lotSize - (0 + v)) } := by
      rw [hB, process_overflow _ w hBfill, hA]
    have hupd : updExecutions (updExecutions [] P1 v) P2 (Order.lotSize - (0 + v))
        = [(P1, v), (P2, Order.lotSize - v)] := by
      simp [updExecutions, hne, zero_add]
    refine ⟨by rw [hC], by rw [hC]; exact hupd, ?_⟩
    have hxs : (amendFill P1 P2 v w q2 i2).executions
        = [(P1, v), (P2, Order.lotSize - v)] := by
      rw [hC]
      exact hupd
    unfold Order.get_average_execution_price Order.totalVolume
    rw [hxs]
    dsimp only [List.foldl]
    congr 1
    ring

/-- Witness for C4: amend a half-filled order from price 100 to 50, finish
the fill; the average weights both price levels. -/
theorem claim_C4_amend_preserves_fills_witness :
    (c9inv.add_order (Order.make "BTC-USD" "long" 50 0 80 9).1 =
      (true, { c9inv with
               order := some (amendOrder ((Order.make "BTC-USD" "long" 90 0 50 7).1)
                 ((Order.make "BTC-USD" "long" 50 0 80 9).1)) })) ∧
    (amendFill 100 50 300 900 0 9).executed = Order.lotSize ∧
    (amendFill 100 50 300 900 0 9).executions = [(100, 300), (50, Order.lotSize - 300)] ∧
    (amendFill 100 50 300 900 0 9).get_average_execution_price =
      round4 ((100 * (300 / 100) + 50 * ((Order.lotSize - 300) / 50)) /
              (300 / 100 + (Order.lotSize - 300) / 50)) := by
  have H := claim_C4_amend_preserves_fills c9inv
    ((Order.make "BTC-USD" "long" 90 0 50 7).1)
    ((Order.make "BTC-USD" "long" 50 0 80 9).1)
    100 50 300 900 0 9
  have H2 := H.2 (by norm_num) (by norm_num [Order.lotSize])
    (by norm_num [Order.lotSize]) (by norm_num)
  exact ⟨H.1 rfl rfl, H2.1, H2.2.1, H2.2.2⟩

/-! ### Claim C1 -/

theorem step_no_order (p : PositionI) (bid ask bvol svol : ℚ) (stp : ℤ)
    (h : p.order = none) : p.step bid ask bvol svol stp = (false, p) := by
  unfold PositionI.step
  rw [h]

theorem process_executions_price (o : Order) (v : ℚ) :
    (o.process_executions v).price = o.price := rfl

theorem reduce_queue_ahead_price (o : Order) (v : ℚ) :
    (o.reduce_queue_ahead v).price = o.price := by
  unfold Order.reduce_queue_ahead
  dsimp only
  split <;> rfl

/-- `stepOrderUpdate` never changes the order price, whichever of the
marketability, direct-execution or queue-depletion paths is taken. -/
theorem stepOrderUpdate_price (o : Order) (bid ask bvol svol : ℚ) :
    (stepOrderUpdate o bid ask bvol svol).price = o.price := by
  unfold stepOrderUpdate
  split_ifs <;>
    first
      | rfl
      | exact reduce_queue_ahead_price o _

/-- The position appended by a filling `PositionI.step`: the updated order
with its freshly cached average execution price. -/
def steppedOrder (o : Order) (bid ask bvol svol : ℚ) : Order :=
  let o1 := stepOrderUpdate o bid ask bvol svol
  { o1 with average_exectution_price := o1.get_average_execution_price }

/-- Whenever `PositionI.step` reports a fill of the active order — through
either the direct-execution path or a queue depletion whose overflow
completes the order — the resulting state appends the stepped order and
clears the slot. -/
theorem step_fill (p : PositionI) (o : Order) (bid ask bvol svol : ℚ) (stp : ℤ)
    (horder : p.order = some o)
    (hfill : (p.step bid ask bvol svol stp).1 = true) :
    p.step bid ask bvol svol stp =
      (true,
       { p with
          positions := p.positions ++ [steppedOrder o bid ask bvol svol],
          order := none,
          total_exposure := p.total_exposure +
            (stepOrderUpdate o bid ask bvol svol).get_average_execution_price,
          average_price := (p.total_exposure +
            (stepOrderUpdate o bid ask bvol svol).get_average_execution_price) /
              ((p.positions.length + 1 : ℕ) : ℚ),
          full_inventory := decide (p.max_position_count ≤ p.positions.length + 1) }) := by
  unfold PositionI.step at hfill ⊢
  rw [horder] at hfill ⊢
  dsimp only at hfill ⊢
  by_cases hf : (stepOrderUpdate o bid ask bvol svol).isFilled = true
  · rw [if_pos hf]
    simp [steppedOrder, List.length_append]
  · rw [if_neg hf] at hfill
    simp at hfill

/-- A same-step fill through the queue-depletion path: with positive queue
ahead, a marketable long order whose incoming buy volume both clears the
queue and completes the lot reports a fill. -/
theorem step_fill_queue_overflow (p : PositionI) (o : Order)
    (bid ask bvol svol : ℚ) (stp : ℤ)
    (horder : p.order = some o) (hside : o.side = "long")
    (hbid : bid ≤ o.price) (hq : 0 < o.queue_ahead)
    (hqb : o.queue_ahead < bvol)
    (hfill : Order.lotSize ≤ o.executed + (bvol - o.queue_ahead)) :
    (p.step bid ask bvol svol stp).1 = true := by
  have hnf : o.isFirstInQueue = false := by
    simp only [Order.isFirstInQueue, decide_eq_false_iff_not, not_le]
    exact hq
  have hneg : o.queue_ahead - bvol < 0 := by linarith
  have hexe : (o.reduce_queue_ahead bvol).executed = Order.lotSize := by
    unfold Order.reduce_queue_ahead
    dsimp only
    rw [if_pos hneg]
    rw [process_overflow _ _
      (by show Order.lotSize ≤ o.executed + (0 - (o.queue_ahead - bvol)); linarith)]
  have hfd : (stepOrderUpdate o bid ask bvol svol).isFilled = true := by
    unfold stepOrderUpdate
    rw [hside]
    rw [if_pos rfl, if_pos hbid, hnf]
    rw [if_neg (by simp)]
    simp [Order.isFilled, hexe]
  unfold PositionI.step
  rw [horder]
  dsimp only
  rw [if_pos hfd]

theorem c1_netting (b : Broker) (fee bid ask bvol svol : ℚ) (stp : ℤ)
    (o sp : Order) (rest : List Order)
    (hlo : b.long_inventory.order = some o)
    (hfill : (b.long_inventory.step bid ask bvol svol stp).1 = true)
    (hsp : b.short_inventory.positions = sp :: rest)
    (hsn : b.short_inventory.order = none)
    (hss : b.short_inventory.side = "short") :
    (b.step fee bid ask bvol svol stp).2.short_inventory.positions = rest ∧
    (b.step fee bid ask bvol svol stp).2.long_inventory.positions =
      b.long_inventory.positions ∧
    (b.step fee bid ask bvol svol stp).1 =
      ((sp.price - o.price) / sp.price) / Broker.rewardScale fee := by
  have hls := step_fill b.long_inventory o bid ask bvol svol stp hlo hfill
  have hcnt : 0 < b.short_inventory.position_count := by
    rw [PositionI.position_count, hsp]
    simp
  unfold Broker.step
  rw [hls]
  dsimp only
  rw [if_pos (show true = true ∧ 0 < b.short_inventory.position_count from ⟨rfl, hcnt⟩)]
  rw [pop_position_concat_eq _ b.long_inventory.positions
    (steppedOrder o bid ask bvol svol) rfl]
  dsimp only
  rw [remove_position_cons_eq b.short_inventory sp rest hsp
    ((steppedOrder o bid ask bvol svol).price)]
  dsimp only
  rw [hsn]
  rw [step_no_order _ bid ask bvol svol stp rfl]
  dsimp only
  simp only [Bool.false_eq_true, false_and, ite_false]
  refine ⟨by trivial, by trivial, ?_⟩
  show (closePnl b.short_inventory.side (steppedOrder o bid ask bvol svol).price sp + 0) /
    Broker.rewardScale fee = ((sp.price - o.price) / sp.price) / Broker.rewardScale fee
  have hfp : (steppedOrder o bid ask bvol svol).price = o.price :=
    stepOrderUpdate_price o bid ask bvol svol
  rw [add_zero, hfp, closePnl, hss]
  simp

/-- Claim C1 (amended): whenever the short Inventory holds at least one
closed position (oldest `sp`) and no active short order, any `Broker.step`
on which the long Inventory reports its active order filled — by direct
execution or by queue depletion whose overflow completes the order — nets:
the short side loses its oldest position, the long side is
appended-then-popped so its closed positions are net unchanged, and the
returned value is
`(short_position_price − long_fill_price)/short_position_price` divided by
`reward_scale` (the claim stated the negated numerator
`long_fill_price − short_position_price`; the code books the short side
PnL, whose numerator is `short_position_price − long_fill_price`). -/
theorem claim_C1_netting (b : Broker) (fee bid ask bvol svol : ℚ) (stp : ℤ)
    (o sp : Order) (rest : List Order)
    (hlo : b.long_inventory.order = some o)
    (hfill : (b.long_inventory.step bid ask bvol svol stp).1 = true)
    (hsp : b.short_inventory.positions = sp :: rest)
    (hsn : b.short_inventory.order = none)
    (hss : b.short_inventory.side = "short") :
    (b.step fee bid ask bvol svol stp).2.short_inventory.positions = rest ∧
    (b.step fee bid ask bvol svol stp).2.long_inventory.positions =
      b.long_inventory.positions ∧
    (b.step fee bid ask bvol svol stp).1 =
      ((sp.price - o.price) / sp.price) / Broker.rewardScale fee :=
  c1_netting b fee bid ask bvol svol stp o sp rest hlo hfill hsp hsn hss

/-- The short position already closed and held, for the C1 scenario. -/
def c1spos : Order :=
  { (Order.make "BTC-USD" "short" 100 0 0 0).1 with
    executed := 1000, average_exectution_price := 100 }

/-- A short inventory holding `c1spos`. -/
def c1short : PositionI :=
  { PositionI.init "short" 5 with
    positions := [c1spos], total_exposure := 100, average_price := 100 }

/-- A long inventory with a marketable active order at 110 and 50 of volume
still queued ahead, so a fill must come through the queue-overflow path. -/
def c1long : PositionI :=
  ((PositionI.init "long" 5).add_order (Order.make "BTC-USD" "long" 110 0 50 1).1).2

/-- The broker state of the C1 scenario. -/
def c1broker : Broker := ⟨c1long, c1short⟩

/-- Witness for the amended C1 at fee 1: a buy volume of 1050 depletes the
50 queued ahead and the overflow fills the long order at 110, which nets
against the held short at 100. -/
theorem claim_C1_netting_witness :
    (c1broker.step 1 100 200 1050 0 7).2.short_inventory.positions = [] ∧
    (c1broker.step 1 100 200 1050 0 7).2.long_inventory.positions =
      c1broker.long_inventory.positions ∧
    (c1broker.step 1 100 200 1050 0 7).1 =
      ((c1spos.price - (Order.make "BTC-USD" "long" 110 0 50 1).1.price) / c1spos.price) /
        Broker.rewardScale 1 :=
  claim_C1_netting c1broker 1 100 200 1050 0 7
    ((Order.make "BTC-USD" "long" 110 0 50 1).1) c1spos [] rfl
    (step_fill_queue_overflow c1long ((Order.make "BTC-USD" "long" 110 0 50 1).1)
      100 200 1050 0 7 rfl rfl
      (by show (100:ℚ) ≤ 110; norm_num)
      (by show (0:ℚ) < 50; norm_num)
      (by show (50:ℚ) < 1050; norm_num)
      (by show Order.lotSize ≤ (0:ℚ) + (1050 - 50); norm_num [Order.lotSize]))
    rfl rfl rfl

/-- Counterexample for C1 as stated: at short price 100, long fill price 110
and fee 1 the step returns `-1/20`, not the claimed
`(long_fill_price − short_position_price)/short_position_price / reward_scale
= 1/20`; the claimed sign is reversed. -/
theorem claim_C1_counterexample :
    (c1broker.step 1 100 200 1050 0 7).2.short_inventory.position_count = 0 ∧
    (c1broker.step 1 100 200 1050 0 7).2.long_inventory.position_count = 0 ∧
    (c1broker.step 1 100 200 1050 0 7).1 = -(1/20) ∧
    ¬ (c1broker.step 1 100 200 1050 0 7).1 =
      ((110 - 100) / 100) / Broker.rewardScale 1 := by
  have H := c1_netting c1broker 1 100 200 1050 0 7
    ((Order.make "BTC-USD" "long" 110 0 50 1).1) c1spos [] rfl
    (step_fill_queue_overflow c1long ((Order.make "BTC-USD" "long" 110 0 50 1).1)
      100 200 1050 0 7 rfl rfl
      (by show (100:ℚ) ≤ 110; norm_num)
      (by show (0:ℚ) < 50; norm_num)
      (by show (50:ℚ) < 1050; norm_num)
      (by show Order.lotSize ≤ (0:ℚ) + (1050 - 50); norm_num [Order.lotSize]))
    rfl rfl rfl
  have hval : (c1broker.step 1 100 200 1050 0 7).1 = -(1/20) := by
    rw [H.2.2]
    show (((100:ℚ) - 110) / 100) / Broker.rewardScale 1 = -(1/20)
    norm_num [Broker.rewardScale]
  refine ⟨?_, ?_, hval, ?_⟩
  · rw [PositionI.position_count, H.1]
    rfl
  · rw [PositionI.position_count, H.2.1]
    rfl
  · rw [hval]
    norm_num [Broker.rewardScale]

/-! ### Claim C8 -/

/-- One call on an Inventory, with its arguments. -/
inductive InvOp where
  | add (o : Order)
  | march (bid ask bvol svol : ℚ) (stp : ℤ)
  | pop
  | remove (mid : ℚ)
  | flatten (fee mid : ℚ)
  deriving Repr

/-- Apply one call, keeping only the resulting state. -/
def applyInvOp (p : PositionI) : InvOp → PositionI
  | .add o => (p.add_order o).2
  | .march bid ask bvol svol stp => (p.step bid ask bvol svol stp).2
  | .pop => p.pop_position.2
  | .remove mid => (p.remove_position mid).2
  | .flatten fee mid => (p.flatten_inventory fee mid).2

/-- The capacity invariant: count within capacity, flag consistent, and an
active order only while strictly below capacity. -/
def InvGood (p : PositionI) : Prop :=
  p.positions.length ≤ p.max_position_count ∧
  p.full_inventory = decide (p.max_position_count ≤ p.positions.length) ∧
  (p.order.isSome = true → p.positions.length < p.max_position_count)

theorem add_order_invGood (p : PositionI) (o : Order) (h : InvGood p) :
    InvGood (p.add_order o).2 := by
  obtain ⟨h1, h2, h3⟩ := h
  unfold PositionI.add_order
  by_cases hfull : p.full_inventory = false
  · have hlt : p.positions.length < p.max_position_count := by
      rw [hfull] at h2
      have := of_decide_eq_false h2.symm
      omega
    rw [if_pos hfull]
    cases horder : p.order with
    | none => exact ⟨h1, h2, fun _ => hlt⟩
    | some cur => exact ⟨h1, h2, fun _ => hlt⟩
  · rw [if_neg hfull]
    exact ⟨h1, h2, h3⟩

theorem step_invGood (p : PositionI) (bid ask bvol svol : ℚ) (stp : ℤ)
    (h : InvGood p) : InvGood (p.step bid ask bvol svol stp).2 := by
  obtain ⟨h1, h2, h3⟩ := h
  unfold PositionI.step
  cases horder : p.order with
  | none => exact ⟨h1, h2, h3⟩
  | some o =>
    have hlt : p.positions.length < p.max_position_count := by
      apply h3
      rw [horder]
      rfl
    dsimp only
    by_cases hf : (stepOrderUpdate o bid ask bvol svol).isFilled = true
    · rw [if_pos hf]
      refine ⟨?_, rfl, ?_⟩
      · show (p.positions ++ [_]).length ≤ p.max_position_count
        rw [List.length_append]
        simp only [List.length_cons, List.length_nil]
        omega
      · intro hcontra
        simp at hcontra
    · rw [if_neg hf]
      exact ⟨h1, h2, fun _ => hlt⟩

theorem pop_invGood (p : PositionI) (h : InvGood p) : InvGood p.pop_position.2 := by
  obtain ⟨h1, h2, h3⟩ := h
  unfold PositionI.pop_position
  cases hlast : p.positions.getLast? with
  | none => exact ⟨h1, h2, h3⟩
  | some x =>
    dsimp only
    refine ⟨?_, rfl, ?_⟩
    · show p.positions.dropLast.length ≤ p.max_position_count
      rw [List.length_dropLast]
      omega
    · intro hsome
      show p.positions.dropLast.length < p.max_position_count
      rw [List.length_dropLast]
      have := h3 hsome
      omega

theorem remove_invGood (p : PositionI) (mid : ℚ) (h : InvGood p) :
    InvGood (p.remove_position mid).2 := by
  obtain ⟨h1, h2, h3⟩ := h
  unfold PositionI.remove_position
  cases hpos : p.positions with
  | nil => exact ⟨h1, h2, h3⟩
  | cons ord rest =>
    dsimp only
    rw [hpos] at h1 h3
    simp only [List.length_cons] at h1 h3
    refine ⟨?_, rfl, ?_⟩
    · show rest.length ≤ p.max_position_count
      omega
    · intro hsome
      show rest.length < p.max_position_count
      have := h3 hsome
      omega

theorem flattenAux_invGood (fee mid : ℚ) (n : ℕ) (p : PositionI)
    (h : InvGood p) : InvGood (PositionI.flattenAux fee mid n p) := by
  induction n generalizing p with
  | zero => exact h
  | succ k ih =>
    apply ih
    have := remove_invGood p mid h
    exact this

theorem flatten_invGood (p : PositionI) (fee mid : ℚ) (h : InvGood p) :
    InvGood (p.flatten_inventory fee mid).2 := by
  unfold PositionI.flatten_inventory
  split
  · exact h
  · exact flattenAux_invGood fee mid p.positions.length p h

theorem remove_position_max (p : PositionI) (mid : ℚ) :
    (p.remove_position mid).2.max_position_count = p.max_position_count := by
  unfold PositionI.remove_position
  cases p.positions <;> rfl

theorem flattenAux_max (fee mid : ℚ) (n : ℕ) (p : PositionI) :
    (PositionI.flattenAux fee mid n p).max_position_count = p.max_position_count := by
  induction n generalizing p with
  | zero => rfl
  | succ k ih =>
    rw [PositionI.flattenAux, ih]
    show (p.remove_position mid).2.max_position_count = p.max_position_count
    exact remove_position_max p mid

theorem applyInvOp_max (p : PositionI) (op : InvOp) :
    (applyInvOp p op).max_position_count = p.max_position_count := by
  cases op with
  | add o =>
    unfold applyInvOp PositionI.add_order
    dsimp only
    by_cases hfull : p.full_inventory = false
    · rw [if_pos hfull]
      cases p.order <;> rfl
    · rw [if_neg hfull]
  | march bid ask bvol svol stp =>
    unfold applyInvOp PositionI.step
    dsimp only
    cases p.order with
    | none => rfl
    | some o =>
      dsimp only
      split <;> rfl
  | pop =>
    unfold applyInvOp PositionI.pop_position
    dsimp only
    cases p.positions.getLast? <;> rfl
  | remove mid => exact remove_position_max p mid
  | flatten fee mid =>
    unfold applyInvOp PositionI.flatten_inventory
    dsimp only
    split
    · rfl
    · exact flattenAux_max fee mid p.positions.length p

theorem applyInvOp_invGood (p : PositionI) (op : InvOp) (h : InvGood p) :
    InvGood (applyInvOp p op) := by
  cases op with
  | add o => exact add_order_invGood p o h
  | march bid ask bvol svol stp => exact step_invGood p bid ask bvol svol stp h
  | pop => exact pop_invGood p h
  | remove mid => exact remove_invGood p mid h
  | flatten fee mid => exact flatten_invGood p fee mid h

theorem foldl_invGood (ops : List InvOp) (p : PositionI) (h : InvGood p) :
    InvGood (ops.foldl applyInvOp p) ∧
    (ops.foldl applyInvOp p).max_position_count = p.max_position_count := by
  induction ops generalizing p with
  | nil => exact ⟨h, rfl⟩
  | cons op rest ih =>
    simp only [List.foldl_cons]
    obtain ⟨hg, hM⟩ := ih (applyInvOp p op) (applyInvOp_invGood p op h)
    exact ⟨hg, hM.trans (applyInvOp_max p op)⟩

/-- Claim C8: for every constructible Inventory — the Python constructor
raises `ZeroDivisionError` computing `1 / max_position` at capacity 0, so
`PositionI.make` succeeds exactly for `max_position ≥ 1` — every state
reachable from the initial state by `add_order`, `step`, `pop_position`,
`remove_position` and `flatten_inventory` calls keeps
`position_count ≤ max_position`, keeps the full-inventory flag equal to
`position_count ≥ max_position`, and holds at most one active order (the
slot is a single optional value). -/
theorem claim_C8_inventory_invariant (side : String) (m : ℕ) (inv0 : PositionI)
    (hmk : PositionI.make side m = some inv0) (ops : List InvOp) :
    (ops.foldl applyInvOp inv0).position_count ≤ m ∧
    (ops.foldl applyInvOp inv0).full_inventory =
      decide (m ≤ (ops.foldl applyInvOp inv0).position_count) ∧
    (ops.foldl applyInvOp inv0).order.toList.length ≤ 1 := by
  unfold PositionI.make at hmk
  by_cases hm : m = 0
  · rw [if_pos hm] at hmk
    exact absurd hmk (by simp)
  · rw [if_neg hm] at hmk
    have hinv : inv0 = PositionI.init side m := by
      injection hmk with h
      exact h.symm
    subst hinv
    have h0 : InvGood (PositionI.init side m) := by
      refine ⟨Nat.zero_le m, ?_, ?_⟩
      · show false = decide (m ≤ 0)
        have : decide (m ≤ 0) = false := decide_eq_false (by omega)
        rw [this]
      · intro hsome
        simp [PositionI.init] at hsome
    obtain ⟨⟨g1, g2, g3⟩, gM⟩ := foldl_invGood ops (PositionI.init side m) h0
    have gM1 : (ops.foldl applyInvOp (PositionI.init side m)).max_position_count = m := gM
    refine ⟨?_, ?_, ?_⟩
    · rw [PositionI.position_count]
      omega
    · rw [PositionI.position_count, g2, gM1]
    · cases (ops.foldl applyInvOp (PositionI.init side m)).order <;> simp

/-- Witness for C8: capacity 1, a sequence that fills an order, nets it away
and flattens. -/
theorem claim_C8_inventory_invariant_witness :
    (([InvOp.add (c5order 100 0 0), InvOp.march 100 0 1000 0 1, InvOp.pop,
       InvOp.add (c5order 90 0 3), InvOp.march 90 0 1000 0 2,
       InvOp.remove 95, InvOp.flatten 1 95]).foldl applyInvOp
        (PositionI.init "long" 1)).position_count ≤ 1 ∧
    (([InvOp.add (c5order 100 0 0), InvOp.march 100 0 1000 0 1, InvOp.pop,
       InvOp.add (c5order 90 0 3), InvOp.march 90 0 1000 0 2,
       InvOp.remove 95, InvOp.flatten 1 95]).foldl applyInvOp
        (PositionI.init "long" 1)).full_inventory =
      decide (1 ≤ (([InvOp.add (c5order 100 0 0), InvOp.march 100 0 1000 0 1,
       InvOp.pop, InvOp.add (c5order 90 0 3), InvOp.march 90 0 1000 0 2,
       InvOp.remove 95, InvOp.flatten 1 95]).foldl applyInvOp
        (PositionI.init "long" 1)).position_count) ∧
    (([InvOp.add (c5order 100 0 0), InvOp.march 100 0 1000 0 1, InvOp.pop,
       InvOp.add (c5order 90 0 3), InvOp.march 90 0 1000 0 2,
       InvOp.remove 95, InvOp.flatten 1 95]).foldl applyInvOp
        (PositionI.init "long" 1)).order.toList.length ≤ 1 :=
  claim_C8_inventory_invariant "long" 1 (PositionI.init "long" 1) rfl
    [InvOp.add (c5order 100 0 0), InvOp.march 100 0 1000 0 1, InvOp.pop,
     InvOp.add (c5order 90 0 3), InvOp.march 90 0 1000 0 2,
     InvOp.remove 95, InvOp.flatten 1 95]

/-! ### Claim C10 -/

/-- Claim C10: `Inventory.reset` (invoked on both sides by `Broker.reset`)
clears positions, active order, realized and unrealized PnL, exposure,
average price, trade count and the full flag — restoring the
constructor-initial state whenever the constructor parameters are the
original ones — while the process-wide order id counter is untouched by a
broker reset and keeps increasing by one per order created. -/
theorem claim_C10_reset_keeps_counter (g : GlobalSt) (b : Broker) (m : ℕ)
    (ccy side : String) (price qa : ℚ) (st : ℤ) (inv : PositionI) :
    g.resetBroker.order_id = g.order_id ∧
    ((g.newOrder ccy side price st qa).2.order_id = g.order_id + 1 ∧
     (g.newOrder ccy side price st qa).1.id = g.order_id + 1) ∧
    (inv.reset.positions = [] ∧ inv.reset.order = none ∧
     inv.reset.realized_pnl = 0 ∧ inv.reset.unrealized_pnl = 0 ∧
     inv.reset.full_inventory = false ∧ inv.reset.total_exposure = 0 ∧
     inv.reset.average_price = 0 ∧ inv.reset.total_trade_count = 0 ∧
     inv.reset.side = inv.side ∧
     inv.reset.max_position_count = inv.max_position_count) ∧
    (b.long_inventory.side = "long" → b.short_inventory.side = "short" →
     b.long_inventory.max_position_count = m →
     b.short_inventory.max_position_count = m →
     b.long_inventory.reward_size = 1 / (m : ℚ) →
     b.short_inventory.reward_size = 1 / (m : ℚ) →
     b.reset = Broker.init m) := by
  refine ⟨rfl, ⟨rfl, rfl⟩, ⟨rfl, rfl, rfl, rfl, rfl, rfl, rfl, rfl, rfl, rfl⟩, ?_⟩
  intro hls hss hlm hsm hlr hsr
  have e1 : b.long_inventory.reset = PositionI.init "long" m := by
    unfold PositionI.reset PositionI.init
    rw [hls, hlm, hlr]
  have e2 : b.short_inventory.reset = PositionI.init "short" m := by
    unfold PositionI.reset PositionI.init
    rw [hss, hsm, hsr]
  show (⟨b.long_inventory.reset, b.short_inventory.reset⟩ : Broker) = Broker.init m
  rw [e1, e2]
  rfl

/-- Witness for C10 on a broker of capacity 3 with id counter 5. -/
theorem claim_C10_reset_keeps_counter_witness :
    (GlobalSt.mk 5 (Broker.init 3)).resetBroker.order_id =
      (GlobalSt.mk 5 (Broker.init 3)).order_id ∧
    (((GlobalSt.mk 5 (Broker.init 3)).newOrder "BTC-USD" "long" 100 0 50).2.order_id
       = (GlobalSt.mk 5 (Broker.init 3)).order_id + 1 ∧
     ((GlobalSt.mk 5 (Broker.init 3)).newOrder "BTC-USD" "long" 100 0 50).1.id
       = (GlobalSt.mk 5 (Broker.init 3)).order_id + 1) ∧
    (c6inv.reset.positions = [] ∧ c6inv.reset.order = none ∧
     c6inv.reset.realized_pnl = 0 ∧ c6inv.reset.unrealized_pnl = 0 ∧
     c6inv.reset.full_inventory = false ∧ c6inv.reset.total_exposure = 0 ∧
     c6inv.reset.average_price = 0 ∧ c6inv.reset.total_trade_count = 0 ∧
     c6inv.reset.side = c6inv.side ∧
     c6inv.reset.max_position_count = c6inv.max_position_count) ∧
    (Broker.init 3).reset = Broker.init 3 := by
  have H := claim_C10_reset_keeps_counter (GlobalSt.mk 5 (Broker.init 3))
    (Broker.init 3) 3 "BTC-USD" "long" 100 50 0 c6inv
  exact ⟨H.1, H.2.1, H.2.2.1, H.2.2.2 rfl rfl rfl rfl rfl rfl⟩

end MMBroker
